import Mathlib

/-!
Verification of the beaverdam filtering core against its specification.

The definitions below are a shallow embedding of the Python sources:
* `src/beaverdam/_core/datatablecore.py` (`_is_value_in_criteria`, `DataTableCore`),
* `src/beaverdam/_core/metadatasource.py` (`MongoDbDatabase.get_field_name`,
  `MongoDbDatabase.get_path`, the projection-path walk inside `query`),
* `src/beaverdam/viewer/builduielements_dash.py` (`value_to_label`,
  `encode_criterion_info`, `decode_criterion_info`).

Modelling conventions:
* Python primitive values appearing in table cells are modelled by `Scalar`
  (`None` is `Scalar.snull`); a dataframe cell is a `Cell` (a scalar or a list
  of scalars, which is the shape produced by the projection step).
* Python dicts are modelled as association lists in insertion order; updating
  an existing key keeps its position, a new key is appended (CPython dict
  semantics).
* Equality between values is structural (`DecidableEq`); Python's cross-type
  numeric equalities (`1 == True`, `1 == 1.0`) are not modelled, none of the
  specified behaviours depends on them.
* A raised Python exception is modelled by `Option.none`.
-/

/-- A primitive value as stored in a dataframe cell: `None`, a string, an
integer or a boolean.  (`snull` is Python's `None`.) -/
inductive Scalar where
  | snull : Scalar
  | sstr : String → Scalar
  | sint : Int → Scalar
  | sbool : Bool → Scalar
deriving DecidableEq, Repr

/-- A dataframe cell: either a single scalar or a Python list of scalars.
The projection step of `MongoDbDatabase.query` stores either a primitive,
`None`, or a list of primitives in each cell. -/
inductive Cell where
  | scalar : Scalar → Cell
  | slist : List Scalar → Cell
deriving DecidableEq, Repr

/-- Model of `_is_value_in_criteria(x, criteria)` from `datatablecore.py`:
a list cell passes iff any element is in `criteria`; `None` never passes
(checked before the generic membership test); any other value passes iff it
is a member of `criteria`. -/
def is_value_in_criteria (x : Cell) (criteria : List Scalar) : Bool :=
  match x with
  | Cell.slist xs => xs.any (fun i => criteria.contains i)
  | Cell.scalar Scalar.snull => false
  | Cell.scalar v => criteria.contains v

/-- Filter criteria: a Python dict from column name to the list of allowable
values, in insertion order. -/
abbrev Criteria := List (String × List Scalar)

/-- Python dict assignment `d[k] = v`: overwrite in place if the key exists,
otherwise append at the end. -/
def dictSet {α : Type} (d : List (String × α)) (k : String) (v : α) :
    List (String × α) :=
  if d.any (fun p => p.1 = k) then
    d.map (fun p => if p.1 = k then (k, v) else p)
  else
    d ++ [(k, v)]

/-- Python `del d[k]`: remove the entry for `k`, keeping the others in
order. -/
def dictDel {α : Type} (d : List (String × α)) (k : String) :
    List (String × α) :=
  d.filter (fun p => p.1 ≠ k)

/-- The state held by a `DataTableCore`: the dataframe (row index plus named
columns, the reserved `"selectionState"` column included, as in the Python
object where it is a real dataframe column) and the current filter criteria. -/
structure DataTableCore where
  df_index : List Scalar
  df_cols : List (String × List Cell)
  filter_criteria : Criteria
deriving DecidableEq, Repr

/-- Name of the reserved boolean column, `selection_state_column_name`. -/
def selName : String := "selectionState"

/-- Number of rows, `len(self.df)`. -/
def DataTableCore.nrows (t : DataTableCore) : Nat := t.df_index.length

/-- Column lookup `self.df[k]`; `none` models the `KeyError` pandas raises
for a missing column. -/
def lookupCol (cols : List (String × List Cell)) (k : String) :
    Option (List Cell) :=
  match cols with
  | [] => none
  | p :: rest => if p.1 = k then some p.2 else lookupCol rest k

/-- Column assignment `self.df[k] = v`: replace the column in place if it
exists, otherwise append it. -/
def setCol (cols : List (String × List Cell)) (k : String) (v : List Cell) :
    List (String × List Cell) :=
  if cols.any (fun p => p.1 = k) then
    cols.map (fun p => if p.1 = k then (k, v) else p)
  else
    cols ++ [(k, v)]

/-- One criterion's per-row evaluation inside `apply_filter`.  For the
pseudo-field `"row_index"` a row meets the criterion iff its index value is
in the criterion's list (the code reads `self.filter_criteria["row_index"]`,
which is this criterion's own value list since dict keys are unique);
otherwise the column is looked up (`KeyError`, i.e. `none`, if absent) and
`_is_value_in_criteria` is applied to every cell. -/
def criterionMet (t : DataTableCore) (k : String) (vals : List Scalar) :
    Option (List Bool) :=
  if k = "row_index" then
    some (t.df_index.map (fun idx => vals.contains idx))
  else
    match lookupCol t.df_cols k with
    | some cells => some (cells.map (fun c => is_value_in_criteria c vals))
    | none => none

/-- The criteria loop of `apply_filter`: criteria with an empty value list
are skipped; each other criterion appends its per-row boolean to the per-row
accumulator lists (`zip` truncates, as in Python). -/
def applyCriteria (t : DataTableCore) :
    Criteria → List (List Bool) → Option (List (List Bool))
  | [], acc => some acc
  | p :: rest, acc =>
    if 0 < p.2.length then
      match criterionMet t p.1 p.2 with
      | some met =>
          applyCriteria t rest (acc.zipWith (fun x y => x ++ [y]) met)
      | none => none
    else applyCriteria t rest acc

/-- The selection vector computed by `apply_filter`: if every criterion has
an empty value list, every row is selected; otherwise a row is selected iff
all evaluated criteria accept it. -/
def applyFilterSelected (t : DataTableCore) : Option (List Bool) :=
  if t.filter_criteria.all (fun p => p.2 = []) then
    some (List.replicate t.nrows true)
  else
    (applyCriteria t t.filter_criteria
        (List.replicate t.nrows [])).map
      (fun acc => acc.map (fun x => x.all id))

/-- Model of `DataTableCore.apply_filter`: recompute the selection vector and write it
into the `selectionState` column. -/
def DataTableCore.apply_filter (t : DataTableCore) : Option DataTableCore :=
  (applyFilterSelected t).map fun sel =>
    { t with
      df_cols := setCol t.df_cols selName
        (sel.map fun b => Cell.scalar (Scalar.sbool b)) }

/-- Model of `DataTableCore.set_filter`: replace the criteria wholesale, then
recompute. -/
def DataTableCore.set_filter (t : DataTableCore) (fc : Criteria) :
    Option DataTableCore :=
  DataTableCore.apply_filter { t with filter_criteria := fc }

/-- Model of `DataTableCore.update_filter`: overwrite the entry of every provided key
(in order), keep unmentioned keys, then recompute. -/
def DataTableCore.update_filter (t : DataTableCore) (nfc : Criteria) :
    Option DataTableCore :=
  DataTableCore.apply_filter
    { t with
      filter_criteria :=
        nfc.foldl (fun d p => dictSet d p.1 p.2) t.filter_criteria }

/-- Model of `DataTableCore.clear_filter`: empty the criteria, then recompute. -/
def DataTableCore.clear_filter (t : DataTableCore) : Option DataTableCore :=
  DataTableCore.apply_filter { t with filter_criteria := [] }

/-- Model of `DataTableCore.select_rows`: `update_filter({"row_index": ids})`
followed by a second `apply_filter()` (the code calls `apply_filter` again
after `update_filter` has already recomputed). -/
def DataTableCore.select_rows (t : DataTableCore) (ids : List Scalar) :
    Option DataTableCore :=
  (DataTableCore.update_filter t [("row_index", ids)]).bind
    DataTableCore.apply_filter

/-- Model of `DataTableCore.undo_row_selection`: delete the `"row_index"` key if
present, then recompute. -/
def DataTableCore.undo_row_selection (t : DataTableCore) :
    Option DataTableCore :=
  DataTableCore.apply_filter
    { t with filter_criteria := dictDel t.filter_criteria "row_index" }

/-- The row indices returned by `get_selected_rows`: rows whose
`selectionState` cell does not compare equal to `False` are kept, in order.
(`get_selected_rows` drops the rows where the column `== False` and strips
the column; we record the surviving row index.) -/
def DataTableCore.get_selected_index (t : DataTableCore) : List Scalar :=
  ((t.df_index.zip ((lookupCol t.df_cols selName).getD [])).filter
      (fun p => p.2 ≠ Cell.scalar (Scalar.sbool false))).map Prod.fst

/-- Well-formedness of the dataframe: every column has exactly one cell per
row.  Pandas enforces this invariant on every real `DataTableCore`. -/
def DataTableCore.WFcols (t : DataTableCore) : Prop :=
  ∀ p ∈ t.df_cols, p.2.length = t.df_index.length

instance (t : DataTableCore) : Decidable t.WFcols := by
  unfold DataTableCore.WFcols; infer_instance

/-- The specification-level verdict of one criterion on one row, following
§4.4 of the spec: `"row_index"` is matched against the row's index value,
every other field against the containment rule for its cell. -/
def rowPass (t : DataTableCore) (i : Nat) (k : String) (vals : List Scalar) :
    Bool :=
  if k = "row_index" then
    ((t.df_index[i]?).map (fun idx => vals.contains idx)).getD false
  else
    match lookupCol t.df_cols k with
    | some cells =>
        ((cells[i]?).map (fun c => is_value_in_criteria c vals)).getD false
    | none => false

example :
    is_value_in_criteria (Cell.slist [Scalar.sstr "a", Scalar.sstr "b"])
      [Scalar.sstr "b", Scalar.sstr "c"] = true := by decide

example :
    is_value_in_criteria (Cell.slist [Scalar.sstr "a", Scalar.sstr "b"])
      [Scalar.sstr "c", Scalar.sstr "d"] = false := by decide

/-- C3: with a non-empty allowed list, a list cell passes iff one of its
elements is allowed, a non-null scalar cell passes iff the scalar is
allowed, and a `Missing` cell (stored as `None` by the projection step)
never passes. -/
theorem criterion_containment_rule (vals : List Scalar) (hne : vals ≠ []) :
    (∀ xs : List Scalar,
        (is_value_in_criteria (Cell.slist xs) vals = true ↔
          ∃ x ∈ xs, x ∈ vals)) ∧
    (∀ v : Scalar, v ≠ Scalar.snull →
        (is_value_in_criteria (Cell.scalar v) vals = true ↔ v ∈ vals)) ∧
    is_value_in_criteria (Cell.scalar Scalar.snull) vals = false := by
  refine ⟨?_, ?_, rfl⟩
  · intro xs
    simp [is_value_in_criteria, List.any_eq_true, List.elem_iff]
  · intro v hv
    cases v with
    | snull => exact absurd rfl hv
    | sstr s => simp [is_value_in_criteria, List.elem_iff]
    | sint n => simp [is_value_in_criteria, List.elem_iff]
    | sbool b => simp [is_value_in_criteria, List.elem_iff]

/-- Witness for `criterion_containment_rule` at the spec's own example. -/
theorem criterion_containment_rule_witness :
    (is_value_in_criteria (Cell.slist [Scalar.sstr "a", Scalar.sstr "b"])
        [Scalar.sstr "b", Scalar.sstr "c"] = true ↔
      ∃ x ∈ [Scalar.sstr "a", Scalar.sstr "b"],
        x ∈ [Scalar.sstr "b", Scalar.sstr "c"]) :=
  (criterion_containment_rule [Scalar.sstr "b", Scalar.sstr "c"]
      (by decide)).1 [Scalar.sstr "a", Scalar.sstr "b"]

/-- C10: a scalar `None` cell never satisfies a criterion, even when `None`
itself is among the allowed values (`x is None` is tested before the
membership test).  Since the projection step stores `None` for an absent
path, a null cell and a `Missing` cell are the same object in the table and
filtering cannot distinguish them. -/
theorem null_cell_never_matches (vals : List Scalar)
    (hmem : Scalar.snull ∈ vals) :
    is_value_in_criteria (Cell.scalar Scalar.snull) vals = false := rfl

/-- Witness for `null_cell_never_matches`. -/
theorem null_cell_never_matches_witness :
    is_value_in_criteria (Cell.scalar Scalar.snull)
      [Scalar.snull, Scalar.sstr "x"] = false :=
  null_cell_never_matches [Scalar.snull, Scalar.sstr "x"] (by decide)

/-! ### Association-list and column lemmas -/

theorem lookupCol_mem {cols : List (String × List Cell)} {k : String}
    {v : List Cell} (h : lookupCol cols k = some v) : (k, v) ∈ cols := by
  induction cols with
  | nil => simp [lookupCol] at h
  | cons p rest ih =>
    rw [lookupCol] at h
    by_cases hp : p.1 = k
    · simp only [hp, if_pos rfl] at h
      cases h
      exact hp ▸ List.mem_cons_self p rest
    · rw [if_neg hp] at h
      exact List.mem_cons_of_mem _ (ih h)

theorem lookupCol_none_of_no_key {cols : List (String × List Cell)}
    {k : String} (h : cols.any (fun p => p.1 = k) = false) :
    lookupCol cols k = none := by
  induction cols with
  | nil => rfl
  | cons p rest ih =>
    simp only [List.any_cons, Bool.or_eq_false_iff, decide_eq_false_iff_not] at h
    rw [lookupCol, if_neg h.1]
    exact ih (by simpa using h.2)

theorem lookupCol_map_set {cols : List (String × List Cell)} {k : String}
    {v : List Cell} (h : cols.any (fun p => p.1 = k) = true) :
    lookupCol (cols.map (fun p => if p.1 = k then (k, v) else p)) k
      = some v := by
  induction cols with
  | nil => simp at h
  | cons p rest ih =>
    by_cases hp : p.1 = k
    · simp [lookupCol, hp]
    · simp only [List.any_cons, Bool.or_eq_true, decide_eq_true_eq] at h
      rcases h with h | h
      · exact absurd h hp
      · simp only [List.map_cons, if_neg hp]
        rw [lookupCol, if_neg hp]
        exact ih h

theorem lookupCol_append_singleton {cols : List (String × List Cell)}
    {k k' : String} {v : List Cell} (h : k ≠ k') :
    lookupCol (cols ++ [(k, v)]) k' = lookupCol cols k' := by
  induction cols with
  | nil => simp [lookupCol, h]
  | cons p rest ih =>
    by_cases hp : p.1 = k'
    · simp [lookupCol, hp]
    · simp only [List.cons_append]
      rw [lookupCol, if_neg hp, lookupCol, if_neg hp]
      exact ih

theorem lookupCol_append_self {cols : List (String × List Cell)} {k : String}
    {v : List Cell} (h : lookupCol cols k = none) :
    lookupCol (cols ++ [(k, v)]) k = some v := by
  induction cols with
  | nil => simp [lookupCol]
  | cons p rest ih =>
    rw [lookupCol] at h
    by_cases hp : p.1 = k
    · rw [if_pos hp] at h; cases h
    · rw [if_neg hp] at h
      simp only [List.cons_append]
      rw [lookupCol, if_neg hp]
      exact ih h

theorem lookupCol_setCol_self (cols : List (String × List Cell)) (k : String)
    (v : List Cell) : lookupCol (setCol cols k v) k = some v := by
  unfold setCol
  by_cases h : cols.any (fun p => p.1 = k)
  · rw [if_pos h]
    exact lookupCol_map_set h
  · rw [if_neg h]
    exact lookupCol_append_self (lookupCol_none_of_no_key
      (by simp only [Bool.not_eq_true] at h; exact h))

theorem lookupCol_setCol_other {cols : List (String × List Cell)}
    {k k' : String} {v : List Cell} (h : k' ≠ k) :
    lookupCol (setCol cols k v) k' = lookupCol cols k' := by
  unfold setCol
  by_cases hc : cols.any (fun p => p.1 = k)
  · rw [if_pos hc]
    clear hc
    induction cols with
    | nil => rfl
    | cons p rest ih =>
      by_cases hp : p.1 = k
      · have hne : ¬((k, v).1 = k') := fun hh => h hh.symm
        simp only [List.map_cons, if_pos hp]
        rw [lookupCol, if_neg hne, lookupCol, if_neg (hp ▸ hne)]
        exact ih
      · simp only [List.map_cons, if_neg hp]
        rw [lookupCol, lookupCol]
        by_cases hp' : p.1 = k'
        · rw [if_pos hp', if_pos hp']
        · rw [if_neg hp', if_neg hp']
          exact ih
  · rw [if_neg hc]
    exact lookupCol_append_singleton (fun hh => h hh.symm)

theorem any_key_map_set {cols : List (String × List Cell)} {k : String}
    {v : List Cell} (h : cols.any (fun p => p.1 = k) = true) :
    (cols.map (fun p => if p.1 = k then (k, v) else p)).any
      (fun p => p.1 = k) = true := by
  simp only [List.any_eq_true, decide_eq_true_eq] at h ⊢
  obtain ⟨p, hp, hpk⟩ := h
  exact ⟨if p.1 = k then (k, v) else p, List.mem_map_of_mem _ hp, by
    simp [if_pos hpk]⟩

theorem setCol_setCol (cols : List (String × List Cell)) (k : String)
    (v w : List Cell) : setCol (setCol cols k v) k w = setCol cols k w := by
  by_cases hc : cols.any (fun p => p.1 = k)
  · have h1 : setCol cols k v
        = cols.map (fun p => if p.1 = k then (k, v) else p) := by
      unfold setCol; rw [if_pos hc]
    rw [h1]
    unfold setCol
    rw [if_pos (any_key_map_set hc), if_pos hc, List.map_map]
    apply List.map_congr_left
    intro p _
    by_cases hp : p.1 = k
    · simp [Function.comp, if_pos hp]
    · simp [Function.comp, if_neg hp, hp]
  · have h1 : setCol cols k v = cols ++ [(k, v)] := by
      unfold setCol; rw [if_neg hc]
    rw [h1]
    unfold setCol
    have hany : (cols ++ [(k, v)]).any (fun p => p.1 = k) = true := by simp
    rw [if_pos hany, if_neg hc, List.map_append]
    congr 1
    · conv_rhs => rw [← List.map_id cols]
      apply List.map_congr_left
      intro p hp
      have hne : ¬ p.1 = k := by
        intro hpk
        have : cols.any (fun q => q.1 = k) = true := by
          simp only [List.any_eq_true, decide_eq_true_eq]
          exact ⟨p, hp, hpk⟩
        simp [this] at hc
      simp [if_neg hne]
    · simp

/-! ### Behaviour of the `apply_filter` criteria loop -/

theorem criterionMet_isSome (t : DataTableCore) (k : String)
    (vals : List Scalar) :
    (criterionMet t k vals).isSome ↔
      (k = "row_index" ∨ (lookupCol t.df_cols k).isSome) := by
  unfold criterionMet
  by_cases hk : k = "row_index"
  · simp [hk]
  · rw [if_neg hk]
    cases h : lookupCol t.df_cols k <;> simp [hk, h]

theorem criterionMet_length {t : DataTableCore} {k : String}
    {vals : List Scalar} {met : List Bool} (hwf : t.WFcols)
    (h : criterionMet t k vals = some met) : met.length = t.nrows := by
  unfold criterionMet at h
  by_cases hk : k = "row_index"
  · rw [if_pos hk] at h
    cases h
    simp [DataTableCore.nrows]
  · rw [if_neg hk] at h
    cases hl : lookupCol t.df_cols k with
    | none => rw [hl] at h; cases h
    | some cells =>
      rw [hl] at h
      cases h
      simpa [DataTableCore.nrows] using hwf _ (lookupCol_mem hl)

theorem rowPass_row_index {t : DataTableCore} {k : String}
    (hk : k = "row_index") (i : Nat) (vals : List Scalar) :
    rowPass t i k vals
      = ((t.df_index[i]?).map (fun idx => vals.contains idx)).getD false := by
  unfold rowPass
  rw [if_pos hk]

theorem rowPass_col {t : DataTableCore} {k : String} {cells : List Cell}
    (hk : ¬ k = "row_index") (hl : lookupCol t.df_cols k = some cells)
    (i : Nat) (vals : List Scalar) :
    rowPass t i k vals
      = ((cells[i]?).map (fun c => is_value_in_criteria c vals)).getD false := by
  unfold rowPass
  rw [if_neg hk, hl]

theorem criterionMet_getElem {t : DataTableCore} {k : String}
    {vals : List Scalar} {met : List Bool} {i : Nat} (hwf : t.WFcols)
    (h : criterionMet t k vals = some met) (hi : i < t.nrows) :
    met[i]? = some (rowPass t i k vals) := by
  have hi' : i < t.df_index.length := hi
  unfold criterionMet at h
  by_cases hk : k = "row_index"
  · rw [if_pos hk] at h
    cases h
    rw [List.getElem?_map,
      (List.getElem?_eq_some_getElem_iff _ _ hi').mpr trivial,
      rowPass_row_index hk i vals,
      (List.getElem?_eq_some_getElem_iff _ _ hi').mpr trivial]
    rfl
  · rw [if_neg hk] at h
    cases hl : lookupCol t.df_cols k with
    | none => rw [hl] at h; cases h
    | some cells =>
      rw [hl] at h
      cases h
      have hlen : cells.length = t.df_index.length := by
        simpa using hwf _ (lookupCol_mem hl)
      have hic : i < cells.length := by rw [hlen]; exact hi'
      rw [List.getElem?_map,
        (List.getElem?_eq_some_getElem_iff _ _ hic).mpr trivial,
        rowPass_col hk hl i vals,
        (List.getElem?_eq_some_getElem_iff _ _ hic).mpr trivial]
      rfl

theorem applyCriteria_isSome (t : DataTableCore) :
    ∀ (cs : Criteria) (acc : List (List Bool)),
      (applyCriteria t cs acc).isSome ↔
        ∀ p ∈ cs, p.2 ≠ [] → (criterionMet t p.1 p.2).isSome := by
  intro cs
  induction cs with
  | nil => intro acc; simp [applyCriteria]
  | cons p rest ih =>
    intro acc
    simp only [applyCriteria]
    by_cases hp : 0 < p.2.length
    · have hpne : p.2 ≠ [] := by
        intro he; rw [he] at hp; simp at hp
      rw [if_pos hp]
      cases hm : criterionMet t p.1 p.2 with
      | none =>
        simp only [Option.isSome_none, Bool.false_eq_true, false_iff]
        intro hall
        have := hall p (List.mem_cons_self p rest) hpne
        rw [hm] at this
        simp at this
      | some met =>
        rw [ih]
        constructor
        · intro hall q hq hqne
          rcases List.mem_cons.mp hq with rfl | hq'
          · rw [hm]; rfl
          · exact hall q hq' hqne
        · intro hall q hq hqne
          exact hall q (List.mem_cons_of_mem _ hq) hqne
    · have hpe : p.2 = [] := by
        cases hq : p.2 with
        | nil => rfl
        | cons a l => rw [hq] at hp; simp at hp
      rw [if_neg hp, ih]
      constructor
      · intro hall q hq hqne
        rcases List.mem_cons.mp hq with rfl | hq'
        · exact absurd hpe hqne
        · exact hall q hq' hqne
      · intro hall q hq hqne
        exact hall q (List.mem_cons_of_mem _ hq) hqne

theorem applyCriteria_spec {t : DataTableCore} (hwf : t.WFcols) :
    ∀ (cs : Criteria) (acc res : List (List Bool)),
      acc.length = t.nrows →
      applyCriteria t cs acc = some res →
      res.length = t.nrows ∧
        ∀ i, i < t.nrows →
          res[i]? = (acc[i]?).map
            (fun a => a ++ (cs.filter (fun p => p.2 ≠ [])).map
              (fun p => rowPass t i p.1 p.2)) := by
  intro cs
  induction cs with
  | nil =>
    intro acc res hlen h
    simp only [applyCriteria, Option.some.injEq] at h
    subst h
    refine ⟨hlen, ?_⟩
    intro i hi
    simp
  | cons p rest ih =>
    intro acc res hlen h
    simp only [applyCriteria] at h
    by_cases hp : 0 < p.2.length
    · have hpne : p.2 ≠ [] := by
        intro he; rw [he] at hp; simp at hp
      rw [if_pos hp] at h
      cases hm : criterionMet t p.1 p.2 with
      | none => rw [hm] at h; cases h
      | some met =>
        rw [hm] at h
        have hmlen := criterionMet_length hwf hm
        have haclen :
            (acc.zipWith (fun x y => x ++ [y]) met).length = t.nrows := by
          rw [List.length_zipWith, hlen, hmlen]
          exact Nat.min_self _
        obtain ⟨hreslen, hres⟩ := ih _ res haclen h
        refine ⟨hreslen, ?_⟩
        intro i hi
        have hia : i < acc.length := by rw [hlen]; exact hi
        have hacc : acc[i]? = some acc[i] :=
          (List.getElem?_eq_some_getElem_iff _ _ hia).mpr trivial
        have hmet := criterionMet_getElem hwf hm hi
        have hzip : (acc.zipWith (fun x y => x ++ [y]) met)[i]?
            = some (acc[i] ++ [rowPass t i p.1 p.2]) := by
          rw [List.getElem?_zipWith', hacc, hmet]
          rfl
        rw [hres i hi, hzip, hacc]
        have hfil : (p :: rest).filter (fun q => q.2 ≠ [])
            = p :: rest.filter (fun q => q.2 ≠ []) := by
          simp [List.filter_cons, hpne]
        rw [hfil]
        simp
    · have hpe : p.2 = [] := by
        cases hq : p.2 with
        | nil => rfl
        | cons a l => rw [hq] at hp; simp at hp
      rw [if_neg hp] at h
      obtain ⟨hreslen, hres⟩ := ih acc res hlen h
      refine ⟨hreslen, ?_⟩
      intro i hi
      rw [hres i hi]
      have hfil : (p :: rest).filter (fun q => q.2 ≠ [])
          = rest.filter (fun q => q.2 ≠ []) := by
        simp [List.filter_cons, hpe]
      rw [hfil]

theorem all_filter_skip (cs : Criteria) (g : String × List Scalar → Bool) :
    ((cs.filter (fun p => p.2 ≠ [])).map g).all id
      = cs.all (fun p => p.2.isEmpty || g p) := by
  induction cs with
  | nil => rfl
  | cons p rest ih =>
    simp only [ne_eq, decide_not] at ih ⊢
    cases hq : p.2 with
    | nil => simp [List.filter_cons, hq, ih]
    | cons a l => simp [List.filter_cons, hq, ih]

theorem applyFilterSelected_spec {t : DataTableCore} {sel : List Bool}
    (hwf : t.WFcols) (h : applyFilterSelected t = some sel) :
    sel.length = t.nrows ∧
      ∀ i, i < t.nrows →
        sel[i]? = some (t.filter_criteria.all
          (fun p => p.2.isEmpty || rowPass t i p.1 p.2)) := by
  unfold applyFilterSelected at h
  by_cases hall : t.filter_criteria.all (fun p => p.2 = []) = true
  · rw [if_pos hall] at h
    cases h
    refine ⟨List.length_replicate _ _, ?_⟩
    intro i hi
    rw [List.getElem?_replicate_of_lt hi]
    congr 1
    symm
    rw [List.all_eq_true]
    intro p hp
    have hpe := (List.all_eq_true.mp hall) p hp
    simp only [decide_eq_true_eq] at hpe
    simp [hpe]
  · rw [if_neg hall] at h
    obtain ⟨res, hres, rfl⟩ := Option.map_eq_some'.mp h
    obtain ⟨hlen, hspec⟩ :=
      applyCriteria_spec hwf _ _ _ (List.length_replicate _ _) hres
    refine ⟨by simpa using hlen, ?_⟩
    intro i hi
    rw [List.getElem?_map, hspec i hi, List.getElem?_replicate_of_lt hi]
    simp only [Option.map_some', List.nil_append, Option.some.injEq]
    simpa only [ne_eq, decide_not] using
      all_filter_skip t.filter_criteria (fun p => rowPass t i p.1 p.2)

/-! ### Claim C2: behaviour on criteria naming a non-existent column -/

/-- A well-formed one-row table whose criteria name a field that is not a
column of the dataframe. -/
def cexMissingColumn : DataTableCore :=
  { df_index := [Scalar.sstr "d1"]
    df_cols := [("genre", [Cell.scalar (Scalar.sstr "jazz")]),
                (selName, [Cell.scalar (Scalar.sbool true)])]
    filter_criteria := [("bogus", [Scalar.sstr "x"])] }

/-- C2 counterexample: a criterion on a field that is not a column does not
make the row fail the criterion — `apply_filter` raises `KeyError` when it
evaluates `self.df["bogus"]` (modelled by `none`), and `set_filter`
propagates the failure.  The claim that `apply_filter` does not raise on
such input is therefore false. -/
theorem apply_filter_unknown_field_raises :
    DataTableCore.apply_filter cexMissingColumn = none ∧
    DataTableCore.set_filter
      { cexMissingColumn with filter_criteria := [] }
      [("bogus", [Scalar.sstr "x"])] = none := by decide

/-- C2 amended: `apply_filter` succeeds exactly when every criterion with a
non-empty value list is either the pseudo-field `"row_index"` or an actual
column of the dataframe; otherwise it raises `KeyError` (and the mutators,
which all end by calling `apply_filter`, propagate the exception). -/
theorem apply_filter_success_iff (t : DataTableCore) :
    (DataTableCore.apply_filter t).isSome ↔
      ∀ p ∈ t.filter_criteria, p.2 ≠ [] →
        (p.1 = "row_index" ∨ (lookupCol t.df_cols p.1).isSome) := by
  unfold DataTableCore.apply_filter
  rw [Option.isSome_map']
  unfold applyFilterSelected
  by_cases hall : t.filter_criteria.all (fun p => p.2 = []) = true
  · rw [if_pos hall]
    simp only [Option.isSome_some, true_iff]
    intro p hp hne
    have hpe := List.all_eq_true.mp hall p hp
    simp only [decide_eq_true_eq] at hpe
    exact absurd hpe hne
  · rw [if_neg hall, Option.isSome_map']
    rw [applyCriteria_isSome]
    constructor
    · intro h2 p hp hne
      exact (criterionMet_isSome t p.1 p.2).mp (h2 p hp hne)
    · intro h2 p hp hne
      exact (criterionMet_isSome t p.1 p.2).mpr (h2 p hp hne)

/-- Witness for `apply_filter_success_iff` at a concrete table. -/
theorem apply_filter_success_iff_witness :
    (DataTableCore.apply_filter
        { df_index := [Scalar.sstr "d1"]
          df_cols := [(selName, [Cell.scalar (Scalar.sbool true)])]
          filter_criteria := [("row_index", [Scalar.sstr "d1"])] }).isSome ↔
      ∀ p ∈ [(("row_index" : String), [Scalar.sstr "d1"])], p.2 ≠ [] →
        (p.1 = "row_index" ∨
          (lookupCol [(selName, [Cell.scalar (Scalar.sbool true)])]
            p.1).isSome) :=
  apply_filter_success_iff
    { df_index := [Scalar.sstr "d1"]
      df_cols := [(selName, [Cell.scalar (Scalar.sbool true)])]
      filter_criteria := [("row_index", [Scalar.sstr "d1"])] }

/-! ### Claim C1: the AND semantics of `apply_filter` -/

/-- The selection column demanded by §4.4 of the spec: row `i` is selected
iff every criterion with a non-empty value list accepts it (empty value
lists always pass). -/
def selectionSpec (t : DataTableCore) : List Cell :=
  (List.range t.nrows).map (fun i =>
    Cell.scalar (Scalar.sbool (t.filter_criteria.all
      (fun p => p.2.isEmpty || rowPass t i p.1 p.2))))

theorem zip_replicate_true_selected (l : List Scalar) :
    ((l.zip (List.replicate l.length
        (Cell.scalar (Scalar.sbool true)))).filter
      (fun p => p.2 ≠ Cell.scalar (Scalar.sbool false))).map Prod.fst = l := by
  induction l with
  | nil => rfl
  | cons a rest ih =>
    simp only [List.length_cons, List.replicate_succ, List.zip_cons_cons]
    rw [List.filter_cons_of_pos (by rfl)]
    simp only [List.map_cons]
    rw [ih]

/-- C1: after a successful `apply_filter`, the `selectionState` column is
exactly the per-row AND of all criteria with a non-empty value list
(`selectionSpec`); if the criteria dict is empty or every entry has an empty
value list, `apply_filter` always succeeds and selects every row; and
`clear_filter` followed by reading the selected rows returns every row of
the table. -/
theorem apply_filter_and_semantics :
    (∀ (t t' : DataTableCore), t.WFcols →
        DataTableCore.apply_filter t = some t' →
        lookupCol t'.df_cols selName = some (selectionSpec t)) ∧
    (∀ t : DataTableCore,
        t.filter_criteria.all (fun p => p.2 = []) →
        DataTableCore.apply_filter t = some
          { t with df_cols := (setCol t.df_cols selName
              (List.replicate t.nrows (Cell.scalar (Scalar.sbool true)))) }) ∧
    (∀ (t t₂ : DataTableCore),
        DataTableCore.clear_filter t = some t₂ →
        t₂.get_selected_index = t.df_index) := by
  have hpart2 : ∀ t : DataTableCore,
      t.filter_criteria.all (fun p => p.2 = []) →
      DataTableCore.apply_filter t = some
        { t with df_cols := (setCol t.df_cols selName
            (List.replicate t.nrows (Cell.scalar (Scalar.sbool true)))) } := by
    intro t hall
    unfold DataTableCore.apply_filter applyFilterSelected
    rw [if_pos hall]
    simp [List.map_replicate]
  refine ⟨?_, hpart2, ?_⟩
  · intro t t' hwf h
    obtain ⟨sel, hsel, rfl⟩ := Option.map_eq_some'.mp h
    obtain ⟨hlen, hspec⟩ := applyFilterSelected_spec hwf hsel
    rw [lookupCol_setCol_self]
    congr 1
    apply List.ext_getElem?
    intro i
    by_cases hi : i < t.nrows
    · rw [List.getElem?_map, hspec i hi]
      unfold selectionSpec
      rw [List.getElem?_map]
      simp [List.getElem?_range, hi]
    · have h1 : (sel.map (fun b => Cell.scalar (Scalar.sbool b)))[i]? = none :=
        List.getElem?_eq_none
          (by rw [List.length_map, hlen]; exact Nat.le_of_not_lt hi)
      have h2 : (selectionSpec t)[i]? = none :=
        List.getElem?_eq_none
          (by
            unfold selectionSpec
            rw [List.length_map, List.length_range]
            exact Nat.le_of_not_lt hi)
      rw [h1, h2]
  · intro t t₂ h
    unfold DataTableCore.clear_filter at h
    rw [hpart2 { t with filter_criteria := [] } (by simp)] at h
    cases h
    unfold DataTableCore.get_selected_index
    rw [lookupCol_setCol_self]
    exact zip_replicate_true_selected t.df_index

/-- Witness for `apply_filter_and_semantics` at a concrete two-row table
filtered on `genre = jazz`. -/
theorem apply_filter_and_semantics_witness :
    lookupCol
      [("genre", [Cell.scalar (Scalar.sstr "jazz"),
                  Cell.scalar (Scalar.sstr "rock")]),
       (selName, [Cell.scalar (Scalar.sbool true),
                  Cell.scalar (Scalar.sbool false)])]
      selName = some (selectionSpec
        { df_index := [Scalar.sstr "d1", Scalar.sstr "d2"]
          df_cols := [("genre", [Cell.scalar (Scalar.sstr "jazz"),
                                 Cell.scalar (Scalar.sstr "rock")]),
                      (selName, [Cell.scalar (Scalar.sbool true),
                                 Cell.scalar (Scalar.sbool true)])]
          filter_criteria := [("genre", [Scalar.sstr "jazz"])] }) :=
  apply_filter_and_semantics.1
    { df_index := [Scalar.sstr "d1", Scalar.sstr "d2"]
      df_cols := [("genre", [Cell.scalar (Scalar.sstr "jazz"),
                             Cell.scalar (Scalar.sstr "rock")]),
                  (selName, [Cell.scalar (Scalar.sbool true),
                             Cell.scalar (Scalar.sbool true)])]
      filter_criteria := [("genre", [Scalar.sstr "jazz"])] }
    { df_index := [Scalar.sstr "d1", Scalar.sstr "d2"]
      df_cols := [("genre", [Cell.scalar (Scalar.sstr "jazz"),
                             Cell.scalar (Scalar.sstr "rock")]),
                  (selName, [Cell.scalar (Scalar.sbool true),
                             Cell.scalar (Scalar.sbool false)])]
      filter_criteria := [("genre", [Scalar.sstr "jazz"])] }
    (by decide) (by decide)

/-! ### Stability of `apply_filter` under rewriting of `selectionState` -/

theorem criterionMet_congr {t₁ t₂ : DataTableCore}
    (hidx : t₁.df_index = t₂.df_index)
    (hcols : ∀ k, k ≠ selName →
      lookupCol t₁.df_cols k = lookupCol t₂.df_cols k)
    {k : String} (hk : k ≠ selName) (vals : List Scalar) :
    criterionMet t₁ k vals = criterionMet t₂ k vals := by
  unfold criterionMet
  by_cases hri : k = "row_index"
  · rw [if_pos hri, if_pos hri, hidx]
  · rw [if_neg hri, if_neg hri, hcols k hk]

theorem applyCriteria_congr {t₁ t₂ : DataTableCore}
    (hidx : t₁.df_index = t₂.df_index)
    (hcols : ∀ k, k ≠ selName →
      lookupCol t₁.df_cols k = lookupCol t₂.df_cols k) :
    ∀ (cs : Criteria) (acc : List (List Bool)),
      (∀ p ∈ cs, p.2 ≠ [] → p.1 ≠ selName) →
      applyCriteria t₁ cs acc = applyCriteria t₂ cs acc := by
  intro cs
  induction cs with
  | nil => intro acc _; rfl
  | cons p rest ih =>
    intro acc hmem
    simp only [applyCriteria]
    by_cases hp : 0 < p.2.length
    · have hpne : p.2 ≠ [] := by
        intro he; rw [he] at hp; simp at hp
      have hpk : p.1 ≠ selName :=
        hmem p (List.mem_cons_self p rest) hpne
      rw [if_pos hp, if_pos hp, criterionMet_congr hidx hcols hpk p.2]
      cases criterionMet t₂ p.1 p.2 with
      | none => rfl
      | some met =>
        exact ih _ (fun q hq => hmem q (List.mem_cons_of_mem _ hq))
    · rw [if_neg hp, if_neg hp]
      exact ih acc (fun q hq => hmem q (List.mem_cons_of_mem _ hq))

theorem applyFilterSelected_congr {t₁ t₂ : DataTableCore}
    (hidx : t₁.df_index = t₂.df_index)
    (hfc : t₁.filter_criteria = t₂.filter_criteria)
    (hcols : ∀ k, k ≠ selName →
      lookupCol t₁.df_cols k = lookupCol t₂.df_cols k)
    (hsel : ∀ p ∈ t₁.filter_criteria, p.1 = selName → p.2 = []) :
    applyFilterSelected t₁ = applyFilterSelected t₂ := by
  have hn : t₁.nrows = t₂.nrows := by
    unfold DataTableCore.nrows; rw [hidx]
  unfold applyFilterSelected
  rw [← hfc, hn]
  by_cases hall : t₁.filter_criteria.all (fun p => p.2 = []) = true
  · rw [if_pos hall, if_pos hall]
  · rw [if_neg hall, if_neg hall]
    rw [applyCriteria_congr hidx hcols t₁.filter_criteria _ ?side]
    case side =>
      intro p hp hpne hpsel
      exact hpne (hsel p hp hpsel)

/-- After a successful `apply_filter`, running `apply_filter` again is the
identity, provided no criterion with a non-empty value list is keyed on the
reserved `selectionState` column (which `apply_filter` itself rewrites). -/
theorem apply_filter_stable {t t' : DataTableCore}
    (hsel : ∀ p ∈ t.filter_criteria, p.1 = selName → p.2 = [])
    (h : DataTableCore.apply_filter t = some t') :
    DataTableCore.apply_filter t' = some t' := by
  obtain ⟨sel, hselv, rfl⟩ := Option.map_eq_some'.mp h
  have hcong : applyFilterSelected
      { t with df_cols := (setCol t.df_cols selName
          (sel.map fun b => Cell.scalar (Scalar.sbool b))) }
      = applyFilterSelected t := by
    refine applyFilterSelected_congr ?_ ?_ ?_ ?_
    · rfl
    · rfl
    · intro k hk
      exact lookupCol_setCol_other hk
    · exact hsel
  unfold DataTableCore.apply_filter
  rw [hcong, hselv]
  simp only [Option.map_some', Option.some.injEq]
  rw [setCol_setCol]

/-! ### Claim C7: idempotence of `apply_filter` -/

/-- A well-formed one-row table whose criteria key the reserved
`selectionState` column, which `apply_filter` itself rewrites. -/
def cexSelState : DataTableCore :=
  { df_index := [Scalar.sstr "d1"]
    df_cols := [(selName, [Cell.scalar (Scalar.sbool false)])]
    filter_criteria := [(selName, [Scalar.sbool false])] }

/-- C7 counterexample: `apply_filter` is not idempotent for every table and
every `FilterCriteria`.  With a criterion keyed on the live `selectionState`
column, both calls succeed but the second call reads the column the first
call just rewrote, and the resulting `selectionState` columns differ. -/
theorem apply_filter_not_idempotent :
    (DataTableCore.apply_filter cexSelState).isSome = true ∧
    ((DataTableCore.apply_filter cexSelState).bind
          DataTableCore.apply_filter).isSome = true ∧
    ((DataTableCore.apply_filter cexSelState).bind
          DataTableCore.apply_filter).map
        (fun u => lookupCol u.df_cols selName)
      ≠ (DataTableCore.apply_filter cexSelState).map
        (fun u => lookupCol u.df_cols selName) := by decide

/-- C7 amended: calling `apply_filter` twice in a row yields the same state
(in particular an identical `selectionState` column) as calling it once,
provided no criterion with a non-empty value list is keyed on the reserved
`selectionState` column — the case the counterexample exhibits. -/
theorem apply_filter_idempotent {t t' : DataTableCore}
    (hsel : ∀ p ∈ t.filter_criteria, p.1 = selName → p.2 = [])
    (h : DataTableCore.apply_filter t = some t') :
    DataTableCore.apply_filter t' = some t' :=
  apply_filter_stable hsel h

/-- Witness for `apply_filter_idempotent` at a concrete table. -/
theorem apply_filter_idempotent_witness :
    DataTableCore.apply_filter
      { df_index := [Scalar.sstr "d1"]
        df_cols := [(selName, [Cell.scalar (Scalar.sbool true)])]
        filter_criteria := [("row_index", [Scalar.sstr "d1"])] }
      = some
      { df_index := [Scalar.sstr "d1"]
        df_cols := [(selName, [Cell.scalar (Scalar.sbool true)])]
        filter_criteria := [("row_index", [Scalar.sstr "d1"])] } :=
  @apply_filter_idempotent
    { df_index := [Scalar.sstr "d1"]
      df_cols := [(selName, [Cell.scalar (Scalar.sbool true)])]
      filter_criteria := [("row_index", [Scalar.sstr "d1"])] }
    { df_index := [Scalar.sstr "d1"]
      df_cols := [(selName, [Cell.scalar (Scalar.sbool true)])]
      filter_criteria := [("row_index", [Scalar.sstr "d1"])] }
    (by decide) (by decide)

/-! ### Claim C5: `select_rows` versus `update_filter({"row_index": ids})` -/

theorem mem_dictSet {α : Type} {d : List (String × α)} {k : String} {v : α}
    {p : String × α} (h : p ∈ dictSet d k v) : p ∈ d ∨ p = (k, v) := by
  unfold dictSet at h
  by_cases hc : d.any (fun q => q.1 = k)
  · rw [if_pos hc] at h
    obtain ⟨q, hq, hqe⟩ := List.mem_map.mp h
    by_cases hqk : q.1 = k
    · right; rw [← hqe, if_pos hqk]
    · left; rw [← hqe, if_neg hqk]; exact hq
  · rw [if_neg hc] at h
    rcases List.mem_append.mp h with h | h
    · left; exact h
    · right; simpa using h

/-- C5 counterexample: `select_rows(ids)` does not leave the engine in the
state of `update_filter({"row_index": ids})` for every engine state.  With a
criterion keyed on the live `selectionState` column, the extra
`apply_filter()` call inside `select_rows` re-reads the column the first
recomputation just rewrote, and the two final states differ. -/
theorem select_rows_not_equiv_update_filter :
    (DataTableCore.update_filter cexSelState
        [("row_index", [Scalar.sstr "d1"])]).isSome = true ∧
    DataTableCore.select_rows cexSelState [Scalar.sstr "d1"]
      ≠ DataTableCore.update_filter cexSelState
          [("row_index", [Scalar.sstr "d1"])] := by decide

/-- C5 amended: `select_rows(ids)` is state-for-state equivalent to
`update_filter({"row_index": ids})` — identical criteria map and identical
`selectionState` column, with `"row_index"` ANDed against all other active
field criteria — provided no criterion with a non-empty value list is keyed
on the reserved `selectionState` column (the case the counterexample
exhibits). -/
theorem select_rows_eq_update_filter (t : DataTableCore) (ids : List Scalar)
    (hsel : ∀ p ∈ t.filter_criteria, p.1 = selName → p.2 = []) :
    DataTableCore.select_rows t ids
      = DataTableCore.update_filter t [("row_index", ids)] := by
  unfold DataTableCore.select_rows
  cases hu : DataTableCore.update_filter t [("row_index", ids)] with
  | none => rfl
  | some t' =>
    show DataTableCore.apply_filter t' = some t'
    have hu' : DataTableCore.apply_filter
        { t with filter_criteria :=
            dictSet t.filter_criteria "row_index" ids } = some t' := hu
    apply apply_filter_stable ?_ hu'
    intro p hp hpsel
    rcases mem_dictSet hp with hmem | rfl
    · exact hsel p hmem hpsel
    · simp [selName] at hpsel

/-- Witness for `select_rows_eq_update_filter` at a concrete table. -/
theorem select_rows_eq_update_filter_witness :
    DataTableCore.select_rows
      { df_index := [Scalar.sstr "d1"]
        df_cols := [(selName, [Cell.scalar (Scalar.sbool true)])]
        filter_criteria := [] } [Scalar.sstr "d1"]
      = DataTableCore.update_filter
      { df_index := [Scalar.sstr "d1"]
        df_cols := [(selName, [Cell.scalar (Scalar.sbool true)])]
        filter_criteria := [] } [("row_index", [Scalar.sstr "d1"])] :=
  select_rows_eq_update_filter
    { df_index := [Scalar.sstr "d1"]
      df_cols := [(selName, [Cell.scalar (Scalar.sbool true)])]
      filter_criteria := [] } [Scalar.sstr "d1"] (by decide)

/-! ### Claim C6: `undo_row_selection` removes exactly `"row_index"` -/

/-- Generic Python dict lookup `d[k]` on an association list. -/
def lookupKey {α : Type} (d : List (String × α)) (k : String) : Option α :=
  match d with
  | [] => none
  | p :: rest => if p.1 = k then some p.2 else lookupKey rest k

theorem lookupKey_dictDel_other {α : Type} {d : List (String × α)}
    {k k' : String} (h : k' ≠ k) :
    lookupKey (dictDel d k) k' = lookupKey d k' := by
  induction d with
  | nil => rfl
  | cons p rest ih =>
    unfold dictDel at ih ⊢
    by_cases hp : p.1 = k
    · rw [List.filter_cons_of_neg (by simp [hp])]
      rw [lookupKey, if_neg (by rw [hp]; exact fun hh => h hh.symm)]
      exact ih
    · rw [List.filter_cons_of_pos (by simp [hp])]
      rw [lookupKey, lookupKey]
      by_cases hp' : p.1 = k'
      · rw [if_pos hp', if_pos hp']
      · rw [if_neg hp', if_neg hp']
        exact ih

theorem dictDel_eq_self {α : Type} {d : List (String × α)} {k : String}
    (h : ∀ p ∈ d, p.1 ≠ k) : dictDel d k = d :=
  List.filter_eq_self.mpr (fun p hp => by simpa using h p hp)

/-- C6: when `undo_row_selection` completes, it has removed exactly the
`"row_index"` entry of the criteria: no `"row_index"` key remains, every
other key (including keys with an empty value list) keeps exactly its
previous value in its previous position, and if `"row_index"` was absent the
criteria are unchanged; the selection is then recomputed by `apply_filter`. -/
theorem undo_row_selection_removes_only_row_index (t t' : DataTableCore)
    (h : DataTableCore.undo_row_selection t = some t') :
    t'.filter_criteria = dictDel t.filter_criteria "row_index" ∧
    (∀ p ∈ t'.filter_criteria, p.1 ≠ "row_index") ∧
    (∀ k, k ≠ "row_index" →
        lookupKey t'.filter_criteria k = lookupKey t.filter_criteria k) ∧
    ((∀ p ∈ t.filter_criteria, p.1 ≠ "row_index") →
        t'.filter_criteria = t.filter_criteria) := by
  unfold DataTableCore.undo_row_selection DataTableCore.apply_filter at h
  obtain ⟨sel, hsel, rfl⟩ := Option.map_eq_some'.mp h
  refine ⟨rfl, ?_, ?_, ?_⟩
  · intro p hp
    simpa using List.of_mem_filter hp
  · intro k hk
    exact lookupKey_dictDel_other hk
  · intro hall
    exact dictDel_eq_self hall

/-- Witness for `undo_row_selection_removes_only_row_index`: after
`select_rows(["d3"])` and a checklist clear on `genre`, undo removes only
the `"row_index"` entry and keeps the empty `genre` entry. -/
theorem undo_row_selection_witness :
    ({ df_index := [Scalar.sstr "d3"]
       df_cols := [(selName, [Cell.scalar (Scalar.sbool true)])]
       filter_criteria := [("genre", [])] } : DataTableCore).filter_criteria
      = dictDel
        ({ df_index := [Scalar.sstr "d3"]
           df_cols := [(selName, [Cell.scalar (Scalar.sbool true)])]
           filter_criteria := [("genre", []), ("row_index", [Scalar.sstr "d3"])] }
          : DataTableCore).filter_criteria "row_index" :=
  (undo_row_selection_removes_only_row_index
    { df_index := [Scalar.sstr "d3"]
      df_cols := [(selName, [Cell.scalar (Scalar.sbool true)])]
      filter_criteria := [("genre", []), ("row_index", [Scalar.sstr "d3"])] }
    { df_index := [Scalar.sstr "d3"]
      df_cols := [(selName, [Cell.scalar (Scalar.sbool true)])]
      filter_criteria := [("genre", [])] }
    (by decide)).1

/-! ### Claim C4: projection-path extraction (`MongoDbDatabase.query`) -/

/-- Model of `path.split(".")` on the character level. -/
def splitOnCharAux (sep : Char) : List Char → List Char → List (List Char)
  | [], acc => [acc.reverse]
  | c :: rest, acc =>
    if c = sep then acc.reverse :: splitOnCharAux sep rest []
    else splitOnCharAux sep rest (c :: acc)

/-- Python `s.split(sep)` for a single-character separator. -/
def pySplitChar (s : String) (sep : Char) : List String :=
  (splitOnCharAux sep s.toList []).map String.mk

def charVal (c : Char) : Nat := c.toNat - 48

/-- Python `int(s)` on a digit string (without sign).  The full builtin also
strips whitespace and allows underscores between digits; projection-path
segments and the codec only ever feed it plain signed decimal literals. -/
def pyParseNatChars (cs : List Char) : Option Nat :=
  if cs ≠ [] ∧ cs.all (fun c => c.isDigit) then
    some (cs.foldl (fun a c => 10 * a + charVal c) 0)
  else none

/-- Python `int(s)`: an optional sign followed by decimal digits. -/
def pyParseIntChars (cs : List Char) : Option Int :=
  match cs with
  | [] => none
  | c :: rest =>
    if c = '-' then (pyParseNatChars rest).map (fun n => -(n : Int))
    else if c = '+' then (pyParseNatChars rest).map (fun n => (n : Int))
    else (pyParseNatChars cs).map (fun n => (n : Int))

def pyParseInt (s : String) : Option Int := pyParseIntChars s.toList

/-- A metadata document: an arbitrarily nested tree of dicts, lists and
primitives (the shape MongoDB / TinyDB return for a JSON document). -/
inductive Doc where
  | leaf : Scalar → Doc
  | dict : List (String × Doc) → Doc
  | arr : List Doc → Doc

/-- Python `None`, the value stored when a projection path cannot be resolved. -/
def nullDoc : Doc := Doc.leaf Scalar.snull

def lookupDict : List (String × Doc) → String → Option Doc
  | [], _ => none
  | p :: rest, k => if p.1 = k then some p.2 else lookupDict rest k

/-- Python sequence subscript `xs[i]`, including negative indices. -/
def pyIndex {α : Type} (xs : List α) (i : Int) : Option α :=
  if 0 ≤ i then xs[i.toNat]?
  else if (-i).toNat ≤ xs.length then xs[(xs.length - (-i).toNat)]? else none

/-- One step of the projection walk in `query`:
`try: v[seg] / except: try: v[int(seg)] / except: None`.
On a dict the key lookup applies (the `int(seg)` fallback can only raise
`KeyError` again, documents are string-keyed); on a list the string
subscript is a `TypeError`, so the integer subscript applies; on a string
scalar Python also supports integer indexing, yielding a one-character
string; every other scalar supports no subscript at all.  `none` means both
attempts raised. -/
def stepLookup (d : Doc) (seg : String) : Option Doc :=
  match d with
  | Doc.dict entries => lookupDict entries seg
  | Doc.arr elems => (pyParseInt seg).bind (fun i => pyIndex elems i)
  | Doc.leaf (Scalar.sstr s) =>
      (pyParseInt seg).bind (fun i =>
        (pyIndex s.toList i).map (fun c => Doc.leaf (Scalar.sstr (String.mk [c]))))
  | Doc.leaf _ => none

/-- The projection loop of `query`: `proj_val` starts at the document and is
updated per segment; when both subscript attempts fail it becomes `None` and
stays `None` (no exception escapes the loop). -/
def walkSegs : Doc → List String → Doc
  | d, [] => d
  | d, seg :: rest => walkSegs ((stepLookup d seg).getD nullDoc) rest

/-- Model of `proj_val` for one projection path: split on `"."` and walk. -/
def extractPath (d : Doc) (path : String) : Doc :=
  walkSegs d (pySplitChar path '.')

/-- The spec's example document `{"a": {"b": [{"c": 1}, {"c": 2}]}}`. -/
def exDoc : Doc :=
  Doc.dict [("a", Doc.dict [("b", Doc.arr
    [Doc.dict [("c", Doc.leaf (Scalar.sint 1))],
     Doc.dict [("c", Doc.leaf (Scalar.sint 2))]])])]

theorem walkSegs_null : ∀ segs : List String, walkSegs nullDoc segs = nullDoc := by
  intro segs
  induction segs with
  | nil => rfl
  | cons seg rest ih =>
    rw [walkSegs]
    have h : stepLookup nullDoc seg = none := rfl
    rw [h]
    exact ih

/-- C4: path extraction walks the split path with key lookup and an
integer-index fallback, never raising: on the spec's example document,
`"a.b.0.c"` resolves to the scalar `1` and the sparse path `"a.b.9.c"`
resolves to `None` (`Missing`); and as soon as one step fails, the walk
yields `None` regardless of the remaining segments. -/
theorem path_extraction_spec :
    extractPath exDoc "a.b.0.c" = Doc.leaf (Scalar.sint 1) ∧
    extractPath exDoc "a.b.9.c" = nullDoc ∧
    (∀ (d : Doc) (seg : String) (rest : List String),
        stepLookup d seg = none → walkSegs d (seg :: rest) = nullDoc) := by
  refine ⟨rfl, rfl, ?_⟩
  intro d seg rest h
  rw [walkSegs, h]
  exact walkSegs_null rest

/-- Witness for `path_extraction_spec`: a failing first step on a scalar
document forces the `None` outcome. -/
theorem path_extraction_spec_witness :
    walkSegs (Doc.leaf (Scalar.sint 1)) ["c"] = nullDoc :=
  path_extraction_spec.2.2 (Doc.leaf (Scalar.sint 1)) "c" [] rfl

/-! ### Claim C9: registry lookups (`get_field_name` / `get_path`) -/

/-- Model of `MongoDbDatabase.get_field_name(path)` for a single path: the first name
(in registration order) whose path equals the request; the `[0]` subscript
raises `IndexError` (`none`) when nothing matches. -/
def get_field_name_single (fields : List (String × String)) (p : String) :
    Option String :=
  ((fields.filter (fun q => q.2 = p)).map Prod.fst)[0]?

/-- Model of `MongoDbDatabase.get_field_name(paths)` for a list of paths: every name
whose path is among the requested paths, in registration order. -/
def get_field_name_list (fields : List (String × String)) (ps : List String) :
    List String :=
  (fields.filter (fun q => ps.contains q.2)).map Prod.fst

/-- Model of `MongoDbDatabase.get_path(name)` for a single name: `self.fields[name]`,
`KeyError` (`none`) when unregistered. -/
def get_path_single (fields : List (String × String)) (n : String) :
    Option String :=
  lookupKey fields n

/-- Model of `MongoDbDatabase.get_path(names)` for a list of names: one dict lookup
per name, left to right, `KeyError` (`none`) as soon as one is
unregistered. -/
def get_path_list (fields : List (String × String)) : List String →
    Option (List String)
  | [] => some []
  | n :: rest =>
    (lookupKey fields n).bind
      (fun p => (get_path_list fields rest).map (fun l => p :: l))

/-- C9 counterexample: a list-of-paths name lookup does not raise on an
unregistered path — it silently returns only the matching names (here the
empty list), while the single-path form of the very same query raises
`IndexError`.  The claim that both raise "for single and for list queries
alike" is therefore false. -/
theorem get_field_name_list_silent_on_unknown :
    get_field_name_list [("n", "p")] ["q"] = [] ∧
    get_field_name_single [("n", "p")] "q" = none := by decide

theorem lookupKey_isSome_iff {α : Type} (fields : List (String × α))
    (n : String) :
    (lookupKey fields n).isSome ↔ n ∈ fields.map Prod.fst := by
  induction fields with
  | nil => simp [lookupKey]
  | cons p rest ih =>
    rw [lookupKey]
    by_cases hp : p.1 = n
    · simp [hp]
    · rw [if_neg hp]
      simp only [List.map_cons, List.mem_cons]
      rw [ih]
      constructor
      · intro h; right; exact h
      · intro h
        rcases h with h | h
        · exact absurd h.symm hp
        · exact h

theorem get_path_list_isSome (fields : List (String × String)) :
    ∀ ns : List String,
      (get_path_list fields ns).isSome ↔ ∀ n ∈ ns, n ∈ fields.map Prod.fst := by
  intro ns
  induction ns with
  | nil => simp [get_path_list]
  | cons a rest ih =>
    simp only [get_path_list]
    cases hfa : lookupKey fields a with
    | none =>
      simp only [Option.none_bind, Option.isSome_none, Bool.false_eq_true,
        false_iff]
      intro h
      have hm := (lookupKey_isSome_iff fields a).mpr
        (h a (List.mem_cons_self a rest))
      rw [hfa] at hm
      simp at hm
    | some b =>
      simp only [Option.some_bind, Option.isSome_map']
      rw [ih]
      constructor
      · intro h n hn
        rcases List.mem_cons.mp hn with rfl | hn'
        · exact (lookupKey_isSome_iff fields n).mp (by rw [hfa]; rfl)
        · exact h n hn'
      · intro h n hn
        exact h n (List.mem_cons_of_mem _ hn)

/-- C9 amended: a single-path name lookup returns the first matching display
name in registration order and raises (`IndexError`) when no registered path
matches; a list-of-paths lookup returns all matching names but silently
omits unregistered paths (no error); path lookups raise (`KeyError`) for an
unregistered name in both the single and the list form. -/
theorem field_registry_lookup_spec :
    (∀ (fields : List (String × String)) (p : String),
        get_field_name_single fields p
          = (fields.find? (fun q => q.2 = p)).map Prod.fst) ∧
    (∀ (fields : List (String × String)) (ps : List String) (n : String),
        n ∈ get_field_name_list fields ps ↔
          ∃ q ∈ fields, q.1 = n ∧ q.2 ∈ ps) ∧
    (∀ (fields : List (String × String)) (n : String),
        get_path_single fields n = none ↔ n ∉ fields.map Prod.fst) ∧
    (∀ (fields : List (String × String)) (ns : List String),
        (get_path_list fields ns).isSome ↔ ∀ n ∈ ns, n ∈ fields.map Prod.fst) := by
  refine ⟨?_, ?_, ?_, ?_⟩
  · intro fields p
    unfold get_field_name_single
    rw [List.getElem?_map]
    rw [show ((fields.filter (fun q => q.2 = p))[0]?)
        = (fields.filter (fun q => q.2 = p)).head? from
      (List.head?_eq_getElem? _).symm]
    rw [List.filter_head?]
  · intro fields ps n
    unfold get_field_name_list
    constructor
    · intro h
      obtain ⟨q, hq, rfl⟩ := List.mem_map.mp h
      have hf := List.mem_filter.mp hq
      exact ⟨q, hf.1, rfl, by simpa [List.elem_iff] using hf.2⟩
    · rintro ⟨q, hq, rfl, hps⟩
      exact List.mem_map.mpr
        ⟨q, List.mem_filter.mpr ⟨hq, by simpa [List.elem_iff] using hps⟩, rfl⟩
  · intro fields n
    unfold get_path_single
    rw [← Option.not_isSome_iff_eq_none, lookupKey_isSome_iff]
  · intro fields ns
    exact get_path_list_isSome fields ns

/-- Witness for `field_registry_lookup_spec`: the ambiguous-path case, two
names registered on the same path. -/
theorem field_registry_lookup_spec_witness :
    get_field_name_single [("n1", "p"), ("n2", "p")] "p"
      = (([("n1", "p"), ("n2", "p")] : List (String × String)).find?
          (fun q => q.2 = "p")).map Prod.fst :=
  field_registry_lookup_spec.1 [("n1", "p"), ("n2", "p")] "p"

/-! ### Claim C8: the criterion codec (`encode_criterion_info` /
`decode_criterion_info`) -/

/-- A primitive criterion value for the codec: one of the four Python types
the decoder supports.  A float is identified with its `repr` string:
`repr` is injective on floats and Python guarantees `float(repr(v)) == v`
for every non-NaN float, so on the codec's round-trip path `float()` is the
identity on the carried repr string (parsing of arbitrary other strings,
and NaN, are not modelled). -/
inductive PrimV where
  | pstr : List Char → PrimV
  | pint : Int → PrimV
  | pfloat : List Char → PrimV
  | pbool : Bool → PrimV
deriving DecidableEq, Repr

/-- Python `str(n)` for a natural number: decimal digits, most significant
first.  (Written with a fuel argument so that it reduces inside the kernel;
`pyNatChars_eq_digits` below gives the closed form.) -/
def pyNatCharsAux : Nat → Nat → List Char → List Char
  | 0, _, acc => acc
  | fuel + 1, n, acc =>
    if n < 10 then Nat.digitChar n :: acc
    else pyNatCharsAux fuel (n / 10) (Nat.digitChar (n % 10) :: acc)

def pyNatChars (n : Nat) : List Char := pyNatCharsAux (n + 1) n []

/-- Python `str(i)` for an integer. -/
def pyIntChars (i : Int) : List Char :=
  if i < 0 then '-' :: pyNatChars i.natAbs else pyNatChars i.natAbs

/-- Model of `str(value_to_label(v))`:  `value_to_label` maps `True`/`False` to the
strings `"True"`/`"False"` and keeps strings and numbers unchanged; `str`
then renders an int as its decimal literal and a float as its repr. -/
def pyLabelChars (v : PrimV) : List Char :=
  match v with
  | PrimV.pstr s => s
  | PrimV.pint n => pyIntChars n
  | PrimV.pfloat r => r
  | PrimV.pbool true => "True".toList
  | PrimV.pbool false => "False".toList

/-- Model of `type(criterion_value).__name__`. -/
def typeNameChars (v : PrimV) : List Char :=
  match v with
  | PrimV.pstr _ => "str".toList
  | PrimV.pint _ => "int".toList
  | PrimV.pfloat _ => "float".toList
  | PrimV.pbool _ => "bool".toList

/-- Model of `encode_criterion_info(criterion_name, criterion_value)`. -/
def encode_criterion_info (name : List Char) (v : PrimV) : List Char :=
  "CRITERION=".toList ++ name ++ "__VALUE=".toList ++ pyLabelChars v
    ++ "__TYPE=".toList ++ typeNameChars v

/-- Python `sub in s`: substring containment. -/
def containsSub (sep : List Char) : List Char → Bool
  | [] => sep.isPrefixOf []
  | c :: rest => sep.isPrefixOf (c :: rest) || containsSub sep rest

/-- Python `s.split(sep)`: leftmost, non-overlapping matches; the `skip`
counter consumes the remaining characters of a just-matched separator. -/
def splitGo (sep : List Char) : List Char → Nat → List Char → List (List Char)
  | [], _, acc => [acc.reverse]
  | _ :: rest, Nat.succ skip, acc => splitGo sep rest skip acc
  | c :: rest, 0, acc =>
    if sep.isPrefixOf (c :: rest) then
      acc.reverse :: splitGo sep rest (sep.length - 1) []
    else
      splitGo sep rest 0 (c :: acc)

/-- Python `cs.split(sep)` for a non-empty separator. -/
def pySplitSub (cs sep : List Char) : List (List Char) := splitGo sep cs 0 []

/-- Model of `get_value(key_name)` inside `decode_criterion_info`: take the first
component containing `key_name` as a substring (`IndexError`, i.e. `none`,
when there is none), split it on `key_name + "="` and take element `[1]`
(`IndexError` when the split has fewer than two parts). -/
def getValue (comps : List (List Char)) (key : List Char) :
    Option (List Char) :=
  match comps.find? (fun s => containsSub key s) with
  | none => none
  | some comp => (pySplitSub comp (key ++ "=".toList))[1]?

/-- Python `s.lower()` (ASCII suffices for the codec's `"true"/"false"`). -/
def pyLower (cs : List Char) : List Char := cs.map Char.toLower

/-- Model of `float(s)`, defined only on repr strings (the identity; see `PrimV`). -/
def pyParseFloat (s : List Char) : PrimV := PrimV.pfloat s

/-- Model of `decode_criterion_info(criterion_info)`: recover name, value string and
type name from the token, then convert the value string according to the
declared type; an unknown type name, an undecodable bool and an unparsable
int all raise `ValueError` (`none`).  (The Python code computes
`string_components` once; each `getValue` call here receives that same
value.) -/
def decode_criterion_info (token : List Char) :
    Option (List Char × PrimV) :=
  (getValue (pySplitSub token "__".toList) "CRITERION".toList).bind
    (fun name =>
      (getValue (pySplitSub token "__".toList) "VALUE".toList).bind
        (fun valStr =>
          (getValue (pySplitSub token "__".toList) "TYPE".toList).bind
            (fun ty =>
              if ty = "str".toList then some (name, PrimV.pstr valStr)
              else if ty = "int".toList then
                (pyParseIntChars valStr).map (fun n => (name, PrimV.pint n))
              else if ty = "float".toList then some (name, pyParseFloat valStr)
              else if ty = "bool".toList then
                if pyLower valStr = "true".toList then
                  some (name, PrimV.pbool true)
                else if pyLower valStr = "false".toList then
                  some (name, PrimV.pbool false)
                else none
              else none)))

example :
    decode_criterion_info
        (encode_criterion_info "genre".toList (PrimV.pstr "jazz".toList))
      = some ("genre".toList, PrimV.pstr "jazz".toList) := by decide

example :
    decode_criterion_info
        (encode_criterion_info "n".toList (PrimV.pint (-37)))
      = some ("n".toList, PrimV.pint (-37)) := by decide

theorem pyNatCharsAux_eq :
    ∀ (fuel n : Nat) (acc : List Char), n < fuel →
      pyNatCharsAux fuel n acc
        = (if n = 0 then ['0']
           else ((Nat.digits 10 n).map Nat.digitChar).reverse) ++ acc := by
  intro fuel
  induction fuel with
  | zero => intro n acc h; exact absurd h (Nat.not_lt_zero n)
  | succ fuel ih =>
    intro n acc h
    rw [pyNatCharsAux]
    by_cases hn : n < 10
    · rw [if_pos hn]
      by_cases h0 : n = 0
      · subst h0; rfl
      · rw [if_neg h0]
        rw [Nat.digits_def' (by norm_num : (1 : ℕ) < 10) (Nat.pos_of_ne_zero h0)]
        rw [Nat.mod_eq_of_lt hn, Nat.div_eq_of_lt hn]
        simp
    · rw [if_neg hn]
      have h10 : 10 ≤ n := Nat.le_of_not_lt hn
      have hdiv : n / 10 < fuel := by
        have h1 : n / 10 < n := Nat.div_lt_self (by omega) (by norm_num)
        omega
      rw [ih (n / 10) (Nat.digitChar (n % 10) :: acc) hdiv]
      have hq : ¬ n / 10 = 0 := by
        intro hq0
        have := Nat.div_eq_of_lt ?_ ▸ hq0
        · omega
        · omega
      rw [if_neg hq, if_neg (by omega : ¬ n = 0)]
      rw [Nat.digits_def' (by norm_num : (1 : ℕ) < 10) (by omega : 0 < n)]
      simp [List.append_assoc]

theorem pyNatChars_eq_digits (n : Nat) :
    pyNatChars n
      = if n = 0 then ['0']
        else ((Nat.digits 10 n).map Nat.digitChar).reverse := by
  unfold pyNatChars
  rw [pyNatCharsAux_eq (n + 1) n [] (Nat.lt_succ_self n)]
  simp

theorem charVal_digitChar {d : Nat} (h : d < 10) :
    charVal (Nat.digitChar d) = d := by
  interval_cases d <;> rfl

theorem digitChar_isDigit {d : Nat} (h : d < 10) :
    (Nat.digitChar d).isDigit = true := by
  interval_cases d <;> rfl

theorem foldl_digits_reverse :
    ∀ l : List Nat, (∀ d ∈ l, d < 10) →
      ((l.map Nat.digitChar).reverse).foldl (fun a c => 10 * a + charVal c) 0
        = Nat.ofDigits 10 l := by
  intro l
  induction l with
  | nil => intro _; simp [Nat.ofDigits]
  | cons d rest ih =>
    intro h
    simp only [List.map_cons, List.reverse_cons]
    rw [List.foldl_append]
    simp only [List.foldl_cons, List.foldl_nil]
    rw [ih (fun x hx => h x (List.mem_cons_of_mem _ hx))]
    rw [charVal_digitChar (h d (List.mem_cons_self d rest))]
    rw [Nat.ofDigits_cons]
    push_cast
    ring

theorem pyNatChars_ne_nil (n : Nat) : pyNatChars n ≠ [] := by
  rw [pyNatChars_eq_digits]
  by_cases h0 : n = 0
  · simp [h0]
  · rw [if_neg h0]
    simp [Nat.digits_ne_nil_iff_ne_zero, h0]

theorem pyNatChars_all_digits (n : Nat) :
    ∀ c ∈ pyNatChars n, c.isDigit = true := by
  intro c hc
  rw [pyNatChars_eq_digits] at hc
  by_cases h0 : n = 0
  · rw [if_pos h0] at hc
    simp at hc
    subst hc
    rfl
  · rw [if_neg h0] at hc
    rw [List.mem_reverse] at hc
    obtain ⟨d, hd, rfl⟩ := List.mem_map.mp hc
    exact digitChar_isDigit (Nat.digits_lt_base (by norm_num) hd)

theorem pyParseNatChars_pyNatChars (n : Nat) :
    pyParseNatChars (pyNatChars n) = some n := by
  unfold pyParseNatChars
  rw [if_pos ⟨pyNatChars_ne_nil n, by
    rw [List.all_eq_true]
    intro c hc
    simpa using pyNatChars_all_digits n c hc⟩]
  congr 1
  rw [pyNatChars_eq_digits]
  by_cases h0 : n = 0
  · subst h0; rfl
  · rw [if_neg h0]
    rw [foldl_digits_reverse _
      (fun d hd => Nat.digits_lt_base (by norm_num) hd)]
    exact Nat.ofDigits_digits 10 n

theorem pyParseIntChars_pyIntChars (i : Int) :
    pyParseIntChars (pyIntChars i) = some i := by
  unfold pyIntChars
  by_cases hneg : i < 0
  · rw [if_pos hneg]
    rw [show pyParseIntChars ('-' :: pyNatChars i.natAbs)
        = (pyParseNatChars (pyNatChars i.natAbs)).map (fun n => -(n : Int))
      from by rw [pyParseIntChars]; rw [if_pos rfl]]
    rw [pyParseNatChars_pyNatChars]
    have hval : -((i.natAbs : Nat) : Int) = i := by omega
    exact congrArg some hval
  · rw [if_neg hneg]
    obtain ⟨c, rest, hc⟩ : ∃ c rest, pyNatChars i.natAbs = c :: rest := by
      cases hh : pyNatChars i.natAbs with
      | nil => exact absurd hh (pyNatChars_ne_nil i.natAbs)
      | cons c r => exact ⟨c, r, rfl⟩
    have hcd : c.isDigit = true :=
      pyNatChars_all_digits i.natAbs c (hc ▸ List.mem_cons_self c rest)
    rw [hc, pyParseIntChars]
    rw [if_neg (by intro he; subst he; exact absurd hcd (by decide))]
    rw [if_neg (by intro he; subst he; exact absurd hcd (by decide))]
    rw [← hc, pyParseNatChars_pyNatChars]
    have hval : ((i.natAbs : Nat) : Int) = i := by omega
    exact congrArg some hval

theorem prefix_take_of_le {p l : List Char} {m : Nat} (h : p <+: l)
    (hm : p.length ≤ m) : p <+: l.take m := by
  obtain ⟨t, rfl⟩ := h
  rw [List.take_append_eq_append_take, List.take_of_length_le (by omega)]
  exact ⟨t.take (m - p.length), rfl⟩

theorem isPrefixOf_eq_true_iff {p l : List Char} :
    p.isPrefixOf l = true ↔ p <+: l :=
  List.isPrefixOf_iff_prefix

theorem containsSub_of_isPrefixOf {sep cs : List Char}
    (h : sep.isPrefixOf cs = true) : containsSub sep cs = true := by
  cases cs with
  | nil => exact h
  | cons c rest => simp [containsSub, h]

theorem splitGo_skip (sep : List Char) :
    ∀ (z rest acc : List Char),
      splitGo sep (z ++ rest) z.length acc = splitGo sep rest 0 acc := by
  intro z
  induction z with
  | nil => intro rest acc; rfl
  | cons c zt ih =>
    intro rest acc
    show splitGo sep (c :: (zt ++ rest)) (zt.length + 1) acc = _
    rw [splitGo]
    exact ih rest acc

theorem splitGo_no_match (sep : List Char) :
    ∀ (x y acc : List Char),
      containsSub sep (x ++ y.take (sep.length - 1)) = false →
      splitGo sep (x ++ y) 0 acc = splitGo sep y 0 (x.reverse ++ acc) := by
  intro x
  induction x with
  | nil => intro y acc _; simp
  | cons c xt ih =>
    intro y acc h
    simp only [List.cons_append, containsSub, Bool.or_eq_false_iff,
      List.append_eq] at h
    obtain ⟨h1, h2⟩ := h
    have hpre : sep.isPrefixOf (c :: (xt ++ y)) = false := by
      by_contra hcon
      rw [Bool.not_eq_false] at hcon
      have hp : sep <+: (c :: (xt ++ y)) :=
        isPrefixOf_eq_true_iff.mp hcon
      have htake : sep <+:
          ((c :: (xt ++ y)).take ((c :: xt).length + (sep.length - 1))) :=
        prefix_take_of_le hp (by
          have := hp.length_le
          simp only [List.length_cons]
          omega)
      rw [show ((c :: (xt ++ y)).take ((c :: xt).length + (sep.length - 1)))
          = c :: (xt ++ y.take (sep.length - 1)) from by
        rw [show (c :: (xt ++ y)) = (c :: xt) ++ y from rfl,
          List.take_append]
        rfl] at htake
      rw [isPrefixOf_eq_true_iff.mpr htake] at h1
      cases h1
    show splitGo sep (c :: (xt ++ y)) 0 acc = _
    rw [splitGo, if_neg (by simp [hpre])]
    rw [ih y (c :: acc) h2]
    congr 1
    simp

theorem splitGo_at_sep (sep : List Char) (hne : sep ≠ []) :
    ∀ (y acc : List Char),
      splitGo sep (sep ++ y) 0 acc = acc.reverse :: splitGo sep y 0 [] := by
  intro y acc
  cases sep with
  | nil => exact absurd rfl hne
  | cons s st =>
    show splitGo (s :: st) (s :: (st ++ y)) 0 acc = _
    rw [splitGo]
    rw [if_pos (by
      exact isPrefixOf_eq_true_iff.mpr
        (show (s :: st) <+: (s :: st) ++ y from List.prefix_append _ _))]
    rw [show (s :: st).length - 1 = st.length from by simp]
    rw [splitGo_skip (s :: st) st y []]

theorem splitGo_final (sep : List Char) (x acc : List Char)
    (h : containsSub sep x = false) :
    splitGo sep x 0 acc = [acc.reverse ++ x] := by
  have h2 : containsSub sep (x ++ ([] : List Char).take (sep.length - 1))
      = false := by simpa using h
  conv_lhs => rw [← List.append_nil x]
  rw [splitGo_no_match sep x [] acc h2]
  show [(x.reverse ++ acc).reverse] = _
  simp

theorem pySplitSub_key (sep rest : List Char) (hne : sep ≠ [])
    (h : containsSub sep rest = false) :
    pySplitSub (sep ++ rest) sep = [[], rest] := by
  unfold pySplitSub
  rw [splitGo_at_sep sep hne rest [], splitGo_final sep rest [] h]
  rfl

theorem pySplitSub_three (sep a b c2 : List Char) (hne : sep ≠ [])
    (ha : containsSub sep (a ++ sep.take (sep.length - 1)) = false)
    (hb : containsSub sep (b ++ sep.take (sep.length - 1)) = false)
    (hc : containsSub sep c2 = false) :
    pySplitSub (a ++ (sep ++ (b ++ (sep ++ c2)))) sep = [a, b, c2] := by
  unfold pySplitSub
  have htk : ∀ z : List Char,
      (sep ++ z).take (sep.length - 1) = sep.take (sep.length - 1) :=
    fun z => List.take_append_of_le_length (by omega)
  rw [splitGo_no_match sep a (sep ++ (b ++ (sep ++ c2))) [] (by
    rw [htk]; exact ha)]
  rw [splitGo_at_sep sep hne _ _]
  rw [splitGo_no_match sep b (sep ++ c2) [] (by rw [htk]; exact hb)]
  rw [splitGo_at_sep sep hne _ _]
  rw [splitGo_final sep c2 [] hc]
  simp

/-- C8 counterexample: the codec does not round-trip for every field name —
a name containing the separator `"__"` is truncated at the first `"__"` by
`decode`, so `decode(encode("a__b", "x"))` yields the name `"a"`. -/
theorem criterion_codec_not_injective :
    decode_criterion_info
        (encode_criterion_info "a__b".toList (PrimV.pstr "x".toList))
      = some ("a".toList, PrimV.pstr "x".toList) ∧
    decode_criterion_info
        (encode_criterion_info "a__b".toList (PrimV.pstr "x".toList))
      ≠ some ("a__b".toList, PrimV.pstr "x".toList) := by decide

/-- C8 amended: `decode(encode(field, v))` recovers `(field, v)` — with the
value's type recovered from the embedded type tag, case-insensitively for
booleans, and any other declared type a hard error — provided the field
name and the encoded value label do not collide with the token syntax: no
`"__"` inside or at the boundaries of the two leading components, no
`"CRITERION="`/`"VALUE"`/`"TYPE"` spoofing inside name or label.  (`decode`
returns the pair `(name, value)`; the value's type is carried by the value
itself.) -/
theorem criterion_codec_roundtrip :
    (∀ (name : List Char) (v : PrimV),
      containsSub "__".toList (("CRITERION=".toList ++ name) ++ ['_'])
          = false →
      containsSub "__".toList
          (("VALUE=".toList ++ pyLabelChars v) ++ ['_']) = false →
      containsSub "CRITERION=".toList name = false →
      containsSub "VALUE".toList ("CRITERION=".toList ++ name) = false →
      containsSub "TYPE".toList ("CRITERION=".toList ++ name) = false →
      containsSub "VALUE=".toList (pyLabelChars v) = false →
      containsSub "TYPE".toList ("VALUE=".toList ++ pyLabelChars v)
          = false →
      decode_criterion_info (encode_criterion_info name v)
        = some (name, v)) ∧
    decode_criterion_info "CRITERION=f__VALUE=TRUE__TYPE=bool".toList
      = some ("f".toList, PrimV.pbool true) ∧
    decode_criterion_info "CRITERION=f__VALUE=tRuE__TYPE=bool".toList
      = some ("f".toList, PrimV.pbool true) ∧
    decode_criterion_info "CRITERION=f__VALUE=x__TYPE=list".toList
      = none := by
  refine ⟨?_, by decide, by decide, by decide⟩
  intro name v h1 h2 h3 h4 h5 h6 h7
  have hdd : ("__".toList : List Char) ≠ [] := by decide
  have htok : encode_criterion_info name v
      = ("CRITERION=".toList ++ name) ++ ("__".toList ++
          (("VALUE=".toList ++ pyLabelChars v) ++ ("__".toList ++
            ("TYPE=".toList ++ typeNameChars v)))) := by
    unfold encode_criterion_info
    rw [show ("__VALUE=".toList : List Char)
        = "__".toList ++ "VALUE=".toList from by decide]
    rw [show ("__TYPE=".toList : List Char)
        = "__".toList ++ "TYPE=".toList from by decide]
    simp [List.append_assoc]
  have hsplit : pySplitSub (encode_criterion_info name v) "__".toList
      = ["CRITERION=".toList ++ name, "VALUE=".toList ++ pyLabelChars v,
         "TYPE=".toList ++ typeNameChars v] := by
    rw [htok]
    apply pySplitSub_three _ _ _ _ hdd
    · rw [show ("__".toList : List Char).take ("__".toList.length - 1)
          = ['_'] from by decide]
      exact h1
    · rw [show ("__".toList : List Char).take ("__".toList.length - 1)
          = ['_'] from by decide]
      exact h2
    · cases v <;> rfl
  have hg1 : getValue
      ["CRITERION=".toList ++ name, "VALUE=".toList ++ pyLabelChars v,
       "TYPE=".toList ++ typeNameChars v] "CRITERION".toList = some name := by
    unfold getValue
    have hcond : containsSub "CRITERION".toList
        ("CRITERION=".toList ++ name) = true :=
      containsSub_of_isPrefixOf (by
        apply isPrefixOf_eq_true_iff.mpr
        rw [show ("CRITERION=".toList : List Char)
            = "CRITERION".toList ++ "=".toList from by decide,
          List.append_assoc]
        exact List.prefix_append _ _)
    rw [List.find?_cons_of_pos _ hcond]
    show (pySplitSub ("CRITERION=".toList ++ name)
      ("CRITERION".toList ++ "=".toList))[1]? = some name
    rw [show ("CRITERION".toList ++ "=".toList : List Char)
        = "CRITERION=".toList from by decide]
    rw [pySplitSub_key "CRITERION=".toList name (by decide) h3]
    rfl
  have hg2 : getValue
      ["CRITERION=".toList ++ name, "VALUE=".toList ++ pyLabelChars v,
       "TYPE=".toList ++ typeNameChars v] "VALUE".toList
      = some (pyLabelChars v) := by
    unfold getValue
    have hcond : containsSub "VALUE".toList
        ("VALUE=".toList ++ pyLabelChars v) = true :=
      containsSub_of_isPrefixOf (by
        apply isPrefixOf_eq_true_iff.mpr
        rw [show ("VALUE=".toList : List Char)
            = "VALUE".toList ++ "=".toList from by decide,
          List.append_assoc]
        exact List.prefix_append _ _)
    rw [List.find?_cons_of_neg _ (by simpa using h4),
      List.find?_cons_of_pos _ hcond]
    show (pySplitSub ("VALUE=".toList ++ pyLabelChars v)
      ("VALUE".toList ++ "=".toList))[1]? = some (pyLabelChars v)
    rw [show ("VALUE".toList ++ "=".toList : List Char)
        = "VALUE=".toList from by decide]
    rw [pySplitSub_key "VALUE=".toList (pyLabelChars v) (by decide) h6]
    rfl
  have hg3 : getValue
      ["CRITERION=".toList ++ name, "VALUE=".toList ++ pyLabelChars v,
       "TYPE=".toList ++ typeNameChars v] "TYPE".toList
      = some (typeNameChars v) := by
    unfold getValue
    have hcond : containsSub "TYPE".toList
        ("TYPE=".toList ++ typeNameChars v) = true :=
      containsSub_of_isPrefixOf (by
        apply isPrefixOf_eq_true_iff.mpr
        rw [show ("TYPE=".toList : List Char)
            = "TYPE".toList ++ "=".toList from by decide,
          List.append_assoc]
        exact List.prefix_append _ _)
    rw [List.find?_cons_of_neg _ (by simpa using h5),
      List.find?_cons_of_neg _ (by simpa using h7),
      List.find?_cons_of_pos _ hcond]
    show (pySplitSub ("TYPE=".toList ++ typeNameChars v)
      ("TYPE".toList ++ "=".toList))[1]? = some (typeNameChars v)
    rw [show ("TYPE".toList ++ "=".toList : List Char)
        = "TYPE=".toList from by decide]
    rw [pySplitSub_key "TYPE=".toList (typeNameChars v) (by decide)
      (by cases v <;> rfl)]
    rfl
  unfold decode_criterion_info
  rw [hsplit, hg1, hg2, hg3]
  simp only [Option.some_bind]
  cases v with
  | pstr s =>
    simp only [typeNameChars, pyLabelChars]
    rfl
  | pint n =>
    simp only [typeNameChars, pyLabelChars]
    rw [pyParseIntChars_pyIntChars n]
    rfl
  | pfloat r =>
    simp only [typeNameChars, pyLabelChars]
    rfl
  | pbool b =>
    cases b
    · simp only [typeNameChars, pyLabelChars]
      rfl
    · simp only [typeNameChars, pyLabelChars]
      rfl

/-- Witness for `criterion_codec_roundtrip` at a concrete string
criterion. -/
theorem criterion_codec_roundtrip_witness :
    decode_criterion_info
        (encode_criterion_info "genre".toList (PrimV.pstr "jazz".toList))
      = some ("genre".toList, PrimV.pstr "jazz".toList) :=
  criterion_codec_roundtrip.1 "genre".toList (PrimV.pstr "jazz".toList)
    (by decide) (by decide) (by decide) (by decide) (by decide) (by decide)
    (by decide)
